import Mathlib

/-!
Verification development for the PDF bookmark editor (`src/main.py`).

The program's only non-trivial logic is text processing:

* `MainWindow.parse_bookmarks` (lines 212-256): splits the editor text into
  lines, skips blank lines, NFKC-normalizes each line, matches it against the
  Python regex `^(\s*)(.*?)(\s+)(\d+)\s*$`, computes a nesting level from the
  indent group, applies the page offset with a clamp to 1, and renders a
  `level "title" page` record.
* `BookmarkEditor.load_existing_bookmarks` (lines 74-105): matches each line
  of the external tool's listing against `^(\d+)\s+"(.*)"\s+(\d+)`, unescapes
  `\"`, and renders `level`-many tabs, the title, a space and the page.
* `BookmarkEditor.unindent_text` (lines 131-153): per selected line, removes
  one leading tab, else four leading spaces, else leaves the line unchanged.
* `MainWindow.generate_temp_pdf` / `MainWindow.save_pdf` (lines 258-295,
  309-336): control flow around temp files and the external `cpdf` call.

Modelling conventions:

* Strings are `List Char`; a text is split into lines on `'\n'` with Python's
  `str.splitlines` convention of not producing a trailing empty line.
* The regexes are embedded as executable functions whose group assignment
  reproduces the backtracking behaviour of Python's engine (leftmost match,
  greedy `\s*`/`\s+`/`\d+`/`.*`, lazy `.*?`), derived by hand from the
  patterns; the derivations are recorded at the definitions below.
* `\s` is modelled on its ASCII members (space, tab, newline, carriage
  return, vertical tab, form feed) and `\d` on the ASCII digits.
* `unicodedata.normalize('NFKC', -)` is a Python library call; it is modelled
  as an explicit function parameter `norm : List Char → List Char` of the
  parser (NFKC is the identity on ASCII, which all concrete inputs below
  use).  Theorems quantify over `norm` or constrain it by hypotheses.
* GUI dialogs and the filesystem/subprocess effects of `generate_temp_pdf`
  and `save_pdf` are modelled as a pure outcome value paired with the ordered
  trace of temp-file create/unlink events the code performs; the external
  tool's success is a boolean parameter.
-/

/-- ASCII members of Python's regex class `\s`: space (32), tab (9), newline
(10), carriage return (13), vertical tab (11), form feed (12). -/
def isWS (c : Char) : Bool :=
  c.toNat = 32 || c.toNat = 9 || c.toNat = 10 || c.toNat = 13 || c.toNat = 11 || c.toNat = 12

/-- ASCII members of Python's regex class `\d`: the characters `'0'`-`'9'`. -/
def isDigitC (c : Char) : Bool :=
  48 ≤ c.toNat && c.toNat ≤ 57

/-- Python `int` on a digit string: `digitsVal "127" = 127`. -/
def digitsVal (l : List Char) : Nat :=
  l.foldl (fun a c => 10 * a + (c.toNat - 48)) 0

/-- Decimal digits of `n` with explicit fuel (structural recursion so the
kernel can evaluate it). -/
def toDecimalAux : Nat → Nat → List Char
  | 0, _ => []
  | fuel + 1, n =>
      if n < 10 then [Nat.digitChar n]
      else toDecimalAux fuel (n / 10) ++ [Nat.digitChar (n % 10)]

/-- Decimal rendering of a natural number, as Python's `str`/f-string does. -/
def toDecimal (n : Nat) : List Char :=
  toDecimalAux (n + 1) n

/-- Python `str.splitlines` restricted to the `'\n'` terminator: no trailing
empty line is produced (`"a\n"` gives `["a"]`, `""` gives `[]`). -/
def pySplitlines : List Char → List (List Char)
  | [] => []
  | c :: t =>
      if c = '\n' then [] :: pySplitlines t
      else
        match pySplitlines t with
        | [] => [[c]]
        | h :: r => (c :: h) :: r

/-- Python `"\n".join`. -/
def joinNl : List (List Char) → List Char
  | [] => []
  | [x] => x
  | x :: xs => x ++ '\n' :: joinNl xs

/-- Python `str.replace(old, new)` for a one-character `old`.  The source's
`title.replace('"', '\"')` (line 246) is this with `old = '"'` and
`new = "\"".data`; note that the Python literal `'\"'` denotes the single
character `"`. -/
def pyReplaceChar (old : Char) (new : List Char) : List Char → List Char
  | [] => []
  | c :: t =>
      if c = old then new ++ pyReplaceChar old new t
      else c :: pyReplaceChar old new t

/-- Python `str.replace('\\"', '"')` (line 99): left-to-right replacement of
each backslash-quote pair by a quote. -/
def pyReplaceBsq : List Char → List Char
  | [] => []
  | '\\' :: '"' :: t => '"' :: pyReplaceBsq t
  | c :: t => c :: pyReplaceBsq t

/-!  The editor-line regex `^(\s*)(.*?)(\s+)(\d+)\s*$` (line 227).

A suffix can complete the pattern after the title exactly when it consists of
one or more whitespace characters, then one or more digits, then only
whitespace; the greedy `\s+`/`\d+`/`\s*` make the decomposition unique.  The
engine first fixes group 1 at the maximal whitespace prefix `W` and, `.*?`
being lazy, takes the shortest title whose remainder is such a suffix; when no
split point at or after `|W|` works, it backtracks group 1.  Backtracking can
succeed only when the whole line is whitespace, digits, trailing whitespace:
there the final whitespace character before the digits becomes group 3, group
1 is the leading whitespace minus that character, and the title is empty. -/

/-- Does `s` match `(\s+)(\d+)\s*$` as a whole? -/
def suffixOk (s : List Char) : Bool :=
  let w := s.takeWhile isWS
  let r := s.drop w.length
  let d := r.takeWhile isDigitC
  !w.isEmpty && !d.isEmpty && (r.drop d.length).all isWS

/-- Earliest split of `s` into `(title, completion)` with `suffixOk`
completion; models the lazy `(.*?)` group. -/
def findFirstOk : List Char → Option (List Char × List Char)
  | [] => none
  | c :: t =>
      if suffixOk (c :: t) then some ([], c :: t)
      else (findFirstOk t).map fun p => (c :: p.1, p.2)

/-- Full-match function for `^(\s*)(.*?)(\s+)(\d+)\s*$` on one line: returns
the indent, title and page-digit groups (groups 1, 2, 4). -/
def matchLine (l : List Char) : Option (List Char × List Char × List Char) :=
  let w := l.takeWhile isWS
  let rest := l.drop w.length
  match findFirstOk rest with
  | some (ttl, suf) =>
      let sep := suf.takeWhile isWS
      let digs := (suf.drop sep.length).takeWhile isDigitC
      some (w, ttl, digs)
  | none =>
      let d := rest.takeWhile isDigitC
      if !w.isEmpty && !d.isEmpty && (rest.drop d.length).all isWS then
        some (w.dropLast, [], d)
      else none

/-- Level computation from the indent group (lines 237-239):
tab count plus space count integer-divided by 4. -/
def levelOf (ind : List Char) : Nat :=
  ind.count '\t' + ind.count ' ' / 4

/-- One iteration of the `parse_bookmarks` loop (lines 218-250) producing the
`(level, title, page)` record of a line: blank raw lines are skipped, the
line is normalized (`norm` models `unicodedata.normalize('NFKC', -)`), then
matched; the page is the digit value plus the offset, clamped to minimum 1.
Lines that fail to match contribute nothing (lines 251-254). -/
def entryOfLine (norm : List Char → List Char) (offset : Int) (lraw : List Char) :
    Option (Nat × List Char × Int) :=
  if lraw.all isWS then none
  else
    match matchLine (norm lraw) with
    | none => none
    | some (ind, ttl, digs) =>
        let page : Int := (digitsVal digs : Int) + offset
        some (levelOf ind, ttl, if page < 1 then 1 else page)

/-- The `(level, title, page)` records `parse_bookmarks` computes, in order. -/
def parse_entries (norm : List Char → List Char) (offset : Int) (text : List Char) :
    List (Nat × List Char × Int) :=
  (pySplitlines text).filterMap (entryOfLine norm offset)

/-- Rendering of one record as the emitted `cpdf` line (lines 246-247):
`level "safe_title" page` where `safe_title = title.replace('"', '\"')`. -/
def renderEntry (e : Nat × List Char × Int) : List Char :=
  toDecimal e.1 ++ ' ' :: '"' :: pyReplaceChar '"' "\"".data e.2.1 ++ '"' :: ' ' :: toDecimal e.2.2.toNat

/-- `MainWindow.parse_bookmarks` (lines 212-256): the list of emitted
`level "title" page` strings. -/
def parse_bookmarks (norm : List Char → List Char) (offset : Int) (text : List Char) :
    List (List Char) :=
  (parse_entries norm offset text).map renderEntry

/-- Formatter direction of `load_existing_bookmarks` (lines 101-102): one
editor line per entry, `level` tab characters, the title, a space, the page. -/
def formatEntryLine (lv : Nat) (ttl : List Char) (page : Nat) : List Char :=
  List.replicate lv '\t' ++ ttl ++ ' ' :: toDecimal page

/-!  The listing-line regex `^(\d+)\s+"(.*)"\s+(\d+)` (line 93).

The pattern is anchored at the start only: greedy `(\d+)` takes the maximal
leading digit run (shortening it never exposes whitespace, so no useful
backtracking), `\s+` the maximal whitespace run, then a quote must follow.
Greedy `(.*)` then takes the longest prefix whose remainder still matches
`"\s+(\d+)`, i.e. the closing quote chosen is the LAST quote followed by
whitespace and a digit; everything after that digit run is ignored. -/

/-- Can `s` serve as the rest starting at the closing quote, i.e. does it
match `"\s+\d` as a prefix? -/
def closeOk (s : List Char) : Bool :=
  match s with
  | '"' :: t =>
      let w := t.takeWhile isWS
      !w.isEmpty && !((t.drop w.length).takeWhile isDigitC).isEmpty
  | _ => false

/-- Split `s` as `(title, closeSuffix)` at the LAST position whose suffix
satisfies `closeOk`; models the greedy `(.*)` group. -/
def findLastClose : List Char → Option (List Char × List Char)
  | [] => none
  | c :: t =>
      match findLastClose t with
      | some (a, b) => some (c :: a, b)
      | none => if closeOk (c :: t) then some ([], c :: t) else none

/-- Full-match function for `^(\d+)\s+"(.*)"\s+(\d+)` on one listing line:
returns the level-digit, title and page-digit groups. -/
def importMatch (l : List Char) : Option (List Char × List Char × List Char) :=
  let d := l.takeWhile isDigitC
  if d.isEmpty then none
  else
    let r1 := l.drop d.length
    let w := r1.takeWhile isWS
    if w.isEmpty then none
    else
      match r1.drop w.length with
      | '"' :: rest =>
          match findLastClose rest with
          | some (ttl, _ :: afterQuote) =>
              let sep := afterQuote.takeWhile isWS
              let pg := (afterQuote.drop sep.length).takeWhile isDigitC
              some (d, ttl, pg)
          | _ => none
      | _ => none

/-- One iteration of the `load_existing_bookmarks` loop (lines 92-102): the
editor line seeded from a listing line, when the line matches: `level`-many
tabs, the unescaped title, a space, the page digits. -/
def load_existing_line (l : List Char) : Option (List Char) :=
  (importMatch l).map fun g =>
    List.replicate (digitsVal g.1) '\t' ++ pyReplaceBsq g.2.1 ++ ' ' :: g.2.2

/-- `BookmarkEditor.unindent_text` per selected line (lines 144-152): delete
one leading tab if the line starts with a tab, else delete four leading
characters if it starts with four spaces, else leave the line unchanged. -/
def unindent_line (l : List Char) : List Char :=
  if ['\t'].isPrefixOf l then l.drop 1
  else if ("    ".data).isPrefixOf l then l.drop 4
  else l

/-- Temp-file events performed by `generate_temp_pdf` and `save_pdf`, in
program order.  `createBookmarkFile` is the `tempfile.NamedTemporaryFile`
write (lines 274-276 / 324-326), `createTempPdf` the `tempfile.mkstemp`
preview output (line 279), the unlink events the `os.unlink` calls. -/
inductive FsEvent where
  | createBookmarkFile
  | createTempPdf
  | unlinkBookmarkFile
  | unlinkTempPdf
deriving DecidableEq, Repr

/-- Result of the `subprocess.run(["cpdf", ...], check=True)` call as the
surrounding code can observe it: the call succeeds; cpdf runs but exits
nonzero, raising `subprocess.CalledProcessError`, which the `except` clauses
(lines 288, 333) catch; or the cpdf executable is not on the search path and
`subprocess.run` raises `FileNotFoundError`, which NO `except` clause
catches, so the exception propagates out of the calling method and none of
the statements after the call run.  (The `shutil.which` checks at lines 78
and 204-205 only guard the importer and the startup warning, not these
calls.) -/
inductive CpdfResult where
  | success
  | calledProcessError
  | fileNotFoundError
deriving DecidableEq, Repr

/-- Observable outcome of `MainWindow.generate_temp_pdf`. -/
inductive GenOutcome where
  /-- Warning dialog "Please select a PDF file" and `return None` (260-262). -/
  | noFileWarning
  /-- Info dialog "No valid bookmarks found to add." and `return None`
  (265-271); the flag records whether the editor text was non-blank, which
  adds the format hint to the message (267-268). -/
  | emptyNotice (inputNonblank : Bool)
  /-- Critical dialog with cpdf's stderr and `return None` (288-292). -/
  | cpdfFailureDialog
  /-- The temp preview PDF path is returned to the caller (295). -/
  | previewReady
  /-- The method is exited by an uncaught exception (`FileNotFoundError`
  from `subprocess.run` when cpdf is missing): no later statement of the
  method executes. -/
  | uncaughtException
deriving DecidableEq, Repr

/-- `MainWindow.generate_temp_pdf` (lines 258-295) as outcome plus ordered
temp-file event trace.  Both temp files are created before the `cpdf` call
(lines 274-280); on success only the bookmark file is unlinked (294) and the
preview path is returned; on `CalledProcessError` both are unlinked
(290-291); on `FileNotFoundError` the exception is uncaught, so the method
exits with neither `os.unlink` executed. -/
def generate_temp_pdf (norm : List Char → List Char) (currentFile : Option (List Char))
    (offset : Int) (text : List Char) (cpdf : CpdfResult) : GenOutcome × List FsEvent :=
  match currentFile with
  | none => (.noFileWarning, [])
  | some _ =>
      let bs := parse_bookmarks norm offset text
      if bs.isEmpty then (.emptyNotice (!text.all isWS), [])
      else
        match cpdf with
        | .success =>
            (.previewReady, [.createBookmarkFile, .createTempPdf, .unlinkBookmarkFile])
        | .calledProcessError =>
            (.cpdfFailureDialog,
             [.createBookmarkFile, .createTempPdf, .unlinkBookmarkFile, .unlinkTempPdf])
        | .fileNotFoundError =>
            (.uncaughtException, [.createBookmarkFile, .createTempPdf])

/-- Observable outcome of `MainWindow.save_pdf`. -/
inductive SaveOutcome where
  | noFileWarning
  | dialogCancelled
  | noBookmarksWarning
  | savedDialog
  | saveFailedDialog
  /-- Uncaught `FileNotFoundError` from `subprocess.run`: line 336's
  `os.unlink` never runs. -/
  | uncaughtException
deriving DecidableEq, Repr

/-- `MainWindow.save_pdf` (lines 309-336) as outcome plus ordered temp-file
event trace; `destChosen` models the save dialog returning a path.  The
`os.unlink` at line 336 runs after the `try`/`except` on both the success
and the `CalledProcessError` path, but not when `subprocess.run` raises the
uncaught `FileNotFoundError`. -/
def save_pdf (norm : List Char → List Char) (currentFile : Option (List Char))
    (destChosen : Bool) (offset : Int) (text : List Char) (cpdf : CpdfResult) :
    SaveOutcome × List FsEvent :=
  match currentFile with
  | none => (.noFileWarning, [])
  | some _ =>
      if !destChosen then (.dialogCancelled, [])
      else
        let bs := parse_bookmarks norm offset text
        if bs.isEmpty then (.noBookmarksWarning, [])
        else
          match cpdf with
          | .success => (.savedDialog, [.createBookmarkFile, .unlinkBookmarkFile])
          | .calledProcessError =>
              (.saveFailedDialog, [.createBookmarkFile, .unlinkBookmarkFile])
          | .fileNotFoundError => (.uncaughtException, [.createBookmarkFile])

/-- Conditions on a title under which the format/parse round trip is exact:
no line-terminator characters (Python `splitlines` would break the line), and
a first and last character that are not whitespace (a leading whitespace
character would be absorbed into the indent group, a trailing one into the
page separator). -/
def titleOk (t : List Char) : Bool :=
  t.all (fun c => !isWS c || c = ' ' || c = '\t') &&
  (match t.head? with | none => true | some c => !isWS c) &&
  (match t.getLast? with | none => true | some c => !isWS c)

/-- Does the title end in a run of digits preceded by a whitespace character?
(The shape the spec documents as ambiguous by construction.) -/
def hasTrailingWsDigits (t : List Char) : Bool :=
  let r := t.reverse
  let d := r.takeWhile isDigitC
  !d.isEmpty &&
    (match (r.drop d.length).head? with | some c => isWS c | none => false)

/-! ### Character-class and list helper lemmas -/

theorem not_ws_of_digit {c : Char} (h : isDigitC c = true) : isWS c = false := by
  simp only [isDigitC, Bool.and_eq_true, decide_eq_true_eq] at h
  simp only [isWS, Bool.or_eq_false_iff, decide_eq_false_iff_not]
  omega

theorem not_digit_of_ws {c : Char} (h : isWS c = true) : isDigitC c = false := by
  simp only [isWS, Bool.or_eq_true, decide_eq_true_eq] at h
  simp only [isDigitC, Bool.and_eq_false_iff, decide_eq_false_iff_not]
  omega

theorem takeWhile_append_all (p : Char → Bool) (xs ys : List Char) (h : xs.all p = true) :
    (xs ++ ys).takeWhile p = xs ++ ys.takeWhile p := by
  induction xs with
  | nil => simp
  | cons c t ih =>
      simp only [List.all_cons, Bool.and_eq_true] at h
      simp [List.takeWhile_cons, h.1, ih h.2]

theorem takeWhile_all (p : Char → Bool) (xs : List Char) (h : xs.all p = true) :
    xs.takeWhile p = xs := by
  simpa using takeWhile_append_all p xs [] h

theorem takeWhile_cons_neg (p : Char → Bool) (c : Char) (t : List Char) (h : p c = false) :
    (c :: t).takeWhile p = [] := by
  simp [List.takeWhile_cons, h]

theorem dropWhile_eq_drop_takeWhile (p : Char → Bool) (l : List Char) :
    l.dropWhile p = l.drop (l.takeWhile p).length := by
  induction l with
  | nil => rfl
  | cons c t ih => by_cases h : p c <;> simp [List.takeWhile_cons, List.dropWhile_cons, h, ih]

theorem all_ws_count_tab_space {xs : List Char} (h : ∀ c ∈ xs, c = '\t' ∨ c = ' ') :
    xs.all isWS = true := by
  rw [List.all_eq_true]
  intro c hc
  rcases h c hc with rfl | rfl <;> rfl

/-! ### Decimal rendering lemmas -/

theorem digitsVal_append_singleton (xs : List Char) (c : Char) :
    digitsVal (xs ++ [c]) = 10 * digitsVal xs + (c.toNat - 48) := by
  simp [digitsVal, List.foldl_append]

theorem digitChar_toNat : ∀ n < 10, (Nat.digitChar n).toNat = 48 + n := by decide

theorem toDecimalAux_spec :
    ∀ fuel n, n < fuel →
      (toDecimalAux fuel n).all isDigitC = true ∧ toDecimalAux fuel n ≠ [] ∧
        digitsVal (toDecimalAux fuel n) = n := by
  intro fuel
  induction fuel with
  | zero => omega
  | succ f ih =>
      intro n hn
      by_cases h10 : n < 10
      · have ht := digitChar_toNat n h10
        refine ⟨?_, by simp [toDecimalAux, h10], ?_⟩
        · simp only [toDecimalAux, if_pos h10, List.all_cons, List.all_nil, Bool.and_true]
          simp only [isDigitC, Bool.and_eq_true, decide_eq_true_eq, ht]
          omega
        · simp [toDecimalAux, h10, digitsVal, ht]
      · have hdiv : n / 10 < f := by
          have := Nat.div_lt_self (by omega : 0 < n) (by omega : 1 < 10)
          omega
        obtain ⟨ha, hne, hv⟩ := ih (n / 10) hdiv
        have hmod : n % 10 < 10 := Nat.mod_lt n (by omega)
        have htm := digitChar_toNat (n % 10) hmod
        refine ⟨?_, by simp [toDecimalAux, h10], ?_⟩
        · simp only [toDecimalAux, if_neg h10, List.all_append, Bool.and_eq_true, ha,
            List.all_cons, List.all_nil, Bool.and_true, true_and]
          simp only [isDigitC, Bool.and_eq_true, decide_eq_true_eq, htm]
          omega
        · simp only [toDecimalAux, if_neg h10, digitsVal_append_singleton, hv, htm]
          omega

theorem toDecimal_all_digits (n : Nat) : (toDecimal n).all isDigitC = true :=
  (toDecimalAux_spec (n + 1) n (by omega)).1

theorem toDecimal_ne_nil (n : Nat) : toDecimal n ≠ [] :=
  (toDecimalAux_spec (n + 1) n (by omega)).2.1

theorem digitsVal_toDecimal (n : Nat) : digitsVal (toDecimal n) = n :=
  (toDecimalAux_spec (n + 1) n (by omega)).2.2


/-! ### Structural lemmas about the editor-line matcher -/

theorem suffixOk_parts {b : List Char} (h : suffixOk b = true) :
    b.takeWhile isWS ≠ [] ∧
    (b.drop (b.takeWhile isWS).length).takeWhile isDigitC ≠ [] ∧
    ((b.drop (b.takeWhile isWS).length).drop
      ((b.drop (b.takeWhile isWS).length).takeWhile isDigitC).length).all isWS = true := by
  simp only [suffixOk, Bool.and_eq_true, Bool.not_eq_true', List.isEmpty_eq_false] at h
  exact ⟨h.1.1, h.1.2, h.2⟩

theorem suffixOk_of_parts {b : List Char} (h1 : b.takeWhile isWS ≠ [])
    (h2 : (b.drop (b.takeWhile isWS).length).takeWhile isDigitC ≠ [])
    (h3 : ((b.drop (b.takeWhile isWS).length).drop
      ((b.drop (b.takeWhile isWS).length).takeWhile isDigitC).length).all isWS = true) :
    suffixOk b = true := by
  simp only [suffixOk, Bool.and_eq_true, Bool.not_eq_true', List.isEmpty_eq_false]
  exact ⟨⟨h1, h2⟩, h3⟩

theorem findFirstOk_spec {s a b : List Char} (h : findFirstOk s = some (a, b)) :
    s = a ++ b ∧ suffixOk b = true := by
  induction s generalizing a b with
  | nil => simp [findFirstOk] at h
  | cons c t ih =>
      rw [findFirstOk] at h
      by_cases hs : suffixOk (c :: t) = true
      · rw [if_pos hs] at h
        simp only [Option.some.injEq, Prod.mk.injEq] at h
        obtain ⟨h1, h2⟩ := h
        subst h1; subst h2
        exact ⟨rfl, hs⟩
      · rw [if_neg hs] at h
        cases ht : findFirstOk t with
        | none => rw [ht] at h; simp at h
        | some p =>
            obtain ⟨a', b'⟩ := p
            rw [ht] at h
            simp only [Option.map_some', Option.some.injEq, Prod.mk.injEq] at h
            obtain ⟨h1, h2⟩ := h
            subst h1; subst h2
            obtain ⟨hst, hsb⟩ := ih ht
            exact ⟨by rw [hst]; rfl, hsb⟩

theorem matchLine_digits {l ind ttl digs : List Char}
    (h : matchLine l = some (ind, ttl, digs)) :
    digs ≠ [] ∧ digs.all isDigitC = true := by
  rw [matchLine] at h
  cases hf : findFirstOk (l.drop (l.takeWhile isWS).length) with
  | some p =>
      obtain ⟨a', b'⟩ := p
      rw [hf] at h
      simp only [Option.some.injEq, Prod.mk.injEq] at h
      obtain ⟨-, -, h3⟩ := h
      obtain ⟨-, hd, -⟩ := suffixOk_parts (findFirstOk_spec hf).2
      subst h3
      refine ⟨hd, ?_⟩
      rw [List.all_eq_true]
      intro c hc
      exact List.mem_takeWhile_imp hc
  | none =>
      rw [hf] at h
      by_cases hc : (!(l.takeWhile isWS).isEmpty &&
          !((l.drop (l.takeWhile isWS).length).takeWhile isDigitC).isEmpty &&
          ((l.drop (l.takeWhile isWS).length).drop
            ((l.drop (l.takeWhile isWS).length).takeWhile isDigitC).length).all isWS) = true
      · rw [if_pos hc] at h
        simp only [Option.some.injEq, Prod.mk.injEq] at h
        obtain ⟨-, -, h3⟩ := h
        simp only [Bool.and_eq_true, Bool.not_eq_true', List.isEmpty_eq_false] at hc
        subst h3
        refine ⟨hc.1.2, ?_⟩
        rw [List.all_eq_true]
        intro c hcm
        exact List.mem_takeWhile_imp hcm
      · rw [if_neg hc] at h; simp at h

theorem entryOfLine_eq_some (norm : List Char → List Char) (offset : Int)
    {l ind ttl digs : List Char} (hb : l.all isWS = false)
    (hm : matchLine (norm l) = some (ind, ttl, digs)) :
    entryOfLine norm offset l =
      some (levelOf ind, ttl,
        if (digitsVal digs : Int) + offset < 1 then 1 else (digitsVal digs : Int) + offset) := by
  simp [entryOfLine, hb, hm]

/-! ### Claims C1, C4, C6, C8, C9 -/

/-- Claim C1 (code bug): the spec says an embedded `"` in a title becomes
`\"` on export.  The code's line 246, `title.replace('"', '\"')`, is intended
to do that (its comment reads "Escape quotes in title") but the Python
literal `'\"'` denotes the single character `"`, so the replacement is the
identity and the record is emitted with the quote unescaped: the title
`A"B` on page 1 is emitted as `0 "A"B" 1`, not as the claimed `0 "A\"B" 1`.
The importer's direction (line 99) does convert `\"` back to `"`. -/
theorem c1_quote_escape_noop :
    pyReplaceChar '"' "\"".data ("A\"B".data) = "A\"B".data ∧
    parse_bookmarks (fun s => s) 0 ("A\"B 1".data) = ["0 \"A\"B\" 1".data] ∧
    "0 \"A\"B\" 1".data ≠ "0 \"A\\\"B\" 1".data ∧
    pyReplaceBsq ("A\\\"B".data) = "A\"B".data := by
  decide

/-- Claim C4: for a line matched with page token `digs` and any integer
offset, the emitted entry's page is `digitsVal digs + offset` when that is at
least 1 and is 1 otherwise (lines 242-243); consequently every entry produced
by `parse_bookmarks` has page at least 1. -/
theorem c4_page_offset_clamp :
    (∀ (norm : List Char → List Char) (offset : Int) (l ind ttl digs : List Char),
        l.all isWS = false → matchLine (norm l) = some (ind, ttl, digs) →
        ∃ pg : Int, entryOfLine norm offset l = some (levelOf ind, ttl, pg) ∧
          (1 ≤ (digitsVal digs : Int) + offset → pg = (digitsVal digs : Int) + offset) ∧
          ((digitsVal digs : Int) + offset < 1 → pg = 1)) ∧
    (∀ (norm : List Char → List Char) (offset : Int) (text : List Char)
        (e : Nat × List Char × Int), e ∈ parse_entries norm offset text → 1 ≤ e.2.2) := by
  constructor
  · intro norm offset l ind ttl digs hb hm
    refine ⟨_, entryOfLine_eq_some norm offset hb hm, ?_, ?_⟩
    · intro h
      rw [if_neg (by omega)]
    · intro h
      rw [if_pos h]
  · intro norm offset text e he
    simp only [parse_entries, List.mem_filterMap] at he
    obtain ⟨l, -, hl⟩ := he
    by_cases hb : l.all isWS = true
    · simp [entryOfLine, hb] at hl
    · cases hm : matchLine (norm l) with
      | none => simp [entryOfLine, hb, hm] at hl
      | some g =>
          obtain ⟨ind, ttl, digs⟩ := g
          rw [entryOfLine_eq_some norm offset (by simpa using hb) hm] at hl
          obtain ⟨e1, e2, e3⟩ := e
          simp only [Option.some.injEq, Prod.mk.injEq] at hl
          obtain ⟨-, -, h3⟩ := hl
          simp only []
          split at h3 <;> omega

/-- Claim C4 witness: page 3 with offset -10 clamps to 1. -/
theorem c4_page_offset_clamp_witness :
    entryOfLine (fun s => s) (-10) ("Intro 3".data) = some (0, "Intro".data, 1) := by
  obtain ⟨pg, he, -, h2⟩ := c4_page_offset_clamp.1 (fun s => s) (-10) ("Intro 3".data)
    [] ("Intro".data) ['3'] (by decide) (by decide)
  rw [he, h2 (by decide)]
  decide

/-- Claim C6: one unindent operation on a line (lines 144-152) removes one
leading tab if the line starts with a tab, else removes exactly four leading
spaces if the line starts with at least four spaces, else leaves the line
unchanged; in particular a line with exactly two leading spaces and no
leading tab is unchanged. -/
theorem c6_unindent_cases :
    ∀ l : List Char,
      (['\t'].isPrefixOf l = true → unindent_line l = l.drop 1) ∧
      (['\t'].isPrefixOf l = false → ("    ".data).isPrefixOf l = true →
        unindent_line l = l.drop 4) ∧
      (['\t'].isPrefixOf l = false → ("    ".data).isPrefixOf l = false →
        unindent_line l = l) ∧
      (∀ r : List Char, l = ' ' :: ' ' :: r → (r.take 1).all (fun c => c != ' ') = true →
        unindent_line l = l) := by
  intro l
  refine ⟨?_, ?_, ?_, ?_⟩
  · intro h
    simp [unindent_line, h]
  · intro h1 h2
    simp [unindent_line, h1, h2]
  · intro h1 h2
    simp [unindent_line, h1, h2]
  · rintro r rfl hr
    have h1 : ['\t'].isPrefixOf (' ' :: ' ' :: r) = false := by
      simp [List.isPrefixOf]
    have h2 : ("    ".data).isPrefixOf (' ' :: ' ' :: r) = false := by
      cases r with
      | nil => decide
      | cons c t =>
          simp only [List.take, List.all_cons, List.all_nil, Bool.and_true, bne_iff_ne,
            ne_eq, decide_eq_true_eq] at hr
          show (' ' :: ' ' :: ' ' :: [' ']).isPrefixOf (' ' :: ' ' :: c :: t) = false
          simp [List.isPrefixOf]
          intro h
          exact absurd h.symm hr
    simp [unindent_line, h1, h2]

/-- Claim C6 witness: two leading spaces unchanged, leading tab removed,
four of five leading spaces removed. -/
theorem c6_unindent_witness :
    unindent_line ("  ab".data) = "  ab".data ∧
    unindent_line ("\tab".data) = "ab".data ∧
    unindent_line ("     x".data) = " x".data := by
  exact ⟨(c6_unindent_cases _).2.2.2 ("ab".data) rfl (by decide),
    (c6_unindent_cases _).1 (by decide),
    (c6_unindent_cases _).2.1 (by decide) (by decide)⟩

/-- Claim C8 counterexample: temp files are not removed on every exit path.
On a successful preview generation the trace of `generate_temp_pdf` (lines
273-295) creates the temp preview PDF but never unlinks it — the path is
returned to the caller and no exit path removes it.  Moreover on the
missing-tool path (`subprocess.run` raising `FileNotFoundError`, which
`except subprocess.CalledProcessError` does not catch) both operations exit
by an uncaught exception with no `os.unlink` executed at all: the preview
operation leaks both temp files and the save operation leaks the bookmark
file. -/
theorem c8_counterexample :
    (generate_temp_pdf (fun s => s) (some "f".data) 0 ("A 1".data) CpdfResult.success).2 =
      [FsEvent.createBookmarkFile, FsEvent.createTempPdf, FsEvent.unlinkBookmarkFile] ∧
    FsEvent.unlinkTempPdf ∉
      (generate_temp_pdf (fun s => s) (some "f".data) 0 ("A 1".data) CpdfResult.success).2 ∧
    (generate_temp_pdf (fun s => s) (some "f".data) 0 ("A 1".data)
        CpdfResult.fileNotFoundError).2 =
      [FsEvent.createBookmarkFile, FsEvent.createTempPdf] ∧
    (save_pdf (fun s => s) (some "f".data) true 0 ("A 1".data)
        CpdfResult.fileNotFoundError).2 =
      [FsEvent.createBookmarkFile] := by
  decide

/-- Claim C8 amended: on the exit paths whose exceptions the code handles —
external-tool success and nonzero exit (`CalledProcessError`) — the
bookmark-list temp file is removed by both `generate_temp_pdf` and
`save_pdf`, and the temp preview PDF is removed on the nonzero-exit path.
But on the success path of `generate_temp_pdf` the preview PDF is handed to
the caller and is not removed by the operation, and on the missing-tool path
(uncaught `FileNotFoundError`) both operations exit exceptionally without
removing any temp file. -/
theorem c8_amended :
    (∀ (norm : List Char → List Char) (f : Option (List Char)) (offset : Int)
        (text : List Char) (r : CpdfResult), r ≠ CpdfResult.fileNotFoundError →
        FsEvent.createBookmarkFile ∈ (generate_temp_pdf norm f offset text r).2 →
        FsEvent.unlinkBookmarkFile ∈ (generate_temp_pdf norm f offset text r).2) ∧
    (∀ (norm : List Char → List Char) (f : Option (List Char)) (offset : Int)
        (text : List Char),
        FsEvent.createTempPdf ∈
          (generate_temp_pdf norm f offset text CpdfResult.calledProcessError).2 →
        FsEvent.unlinkTempPdf ∈
          (generate_temp_pdf norm f offset text CpdfResult.calledProcessError).2) ∧
    (∀ (norm : List Char → List Char) (f : Option (List Char)) (dest : Bool)
        (offset : Int) (text : List Char) (r : CpdfResult),
        r ≠ CpdfResult.fileNotFoundError →
        FsEvent.createBookmarkFile ∈ (save_pdf norm f dest offset text r).2 →
        FsEvent.unlinkBookmarkFile ∈ (save_pdf norm f dest offset text r).2) ∧
    (∀ (norm : List Char → List Char) (f : Option (List Char)) (offset : Int)
        (text : List Char),
        FsEvent.unlinkBookmarkFile ∉
          (generate_temp_pdf norm f offset text CpdfResult.fileNotFoundError).2 ∧
        FsEvent.unlinkTempPdf ∉
          (generate_temp_pdf norm f offset text CpdfResult.fileNotFoundError).2) ∧
    (∀ (norm : List Char → List Char) (f : Option (List Char)) (dest : Bool)
        (offset : Int) (text : List Char),
        FsEvent.unlinkBookmarkFile ∉
          (save_pdf norm f dest offset text CpdfResult.fileNotFoundError).2) := by
  refine ⟨?_, ?_, ?_, ?_, ?_⟩
  · intro norm f offset text r hr h
    cases f with
    | none => simp [generate_temp_pdf] at h
    | some v =>
        cases r with
        | success =>
            simp only [generate_temp_pdf] at h ⊢
            split at h <;> simp_all
        | calledProcessError =>
            simp only [generate_temp_pdf] at h ⊢
            split at h <;> simp_all
        | fileNotFoundError => exact absurd rfl hr
  · intro norm f offset text h
    cases f with
    | none => simp [generate_temp_pdf] at h
    | some v =>
        simp only [generate_temp_pdf] at h ⊢
        split at h <;> simp_all
  · intro norm f dest offset text r hr h
    cases f with
    | none => simp [save_pdf] at h
    | some v =>
        cases r with
        | success =>
            simp only [save_pdf] at h ⊢
            split at h <;> try simp_all
            split at h <;> simp_all
        | calledProcessError =>
            simp only [save_pdf] at h ⊢
            split at h <;> try simp_all
            split at h <;> simp_all
        | fileNotFoundError => exact absurd rfl hr
  · intro norm f offset text
    cases f with
    | none => constructor <;> simp [generate_temp_pdf]
    | some v =>
        simp only [generate_temp_pdf]
        split <;> exact ⟨by simp, by simp⟩
  · intro norm f dest offset text
    cases f with
    | none => simp [save_pdf]
    | some v =>
        simp only [save_pdf]
        split
        · simp
        · split <;> simp

/-- Claim C8 amended witness: on a nonzero cpdf exit both temp files of the
preview operation are removed, and on a successful save the bookmark file is
removed. -/
theorem c8_amended_witness :
    FsEvent.unlinkBookmarkFile ∈
      (generate_temp_pdf (fun s => s) (some "f".data) 0 ("A 1".data)
        CpdfResult.calledProcessError).2 ∧
    FsEvent.unlinkTempPdf ∈
      (generate_temp_pdf (fun s => s) (some "f".data) 0 ("A 1".data)
        CpdfResult.calledProcessError).2 ∧
    FsEvent.unlinkBookmarkFile ∈
      (save_pdf (fun s => s) (some "f".data) true 0 ("A 1".data) CpdfResult.success).2 := by
  exact ⟨c8_amended.1 (fun s => s) (some "f".data) 0 ("A 1".data)
      CpdfResult.calledProcessError (by decide) (by decide),
    c8_amended.2.1 (fun s => s) (some "f".data) 0 ("A 1".data) (by decide),
    c8_amended.2.2.1 (fun s => s) (some "f".data) true 0 ("A 1".data)
      CpdfResult.success (by decide) (by decide)⟩

/-- Claim C9: whenever the regex matches a (non-blank) line, the captured
page token is a nonempty run of digit characters — so the `int` conversion on
line 242 cannot raise and the `ValueError` branch (lines 248-250) is
unreachable — and the line contributes exactly one output record. -/
theorem c9_matched_line_yields_record :
    ∀ (norm : List Char → List Char) (offset : Int) (l ind ttl digs : List Char),
      matchLine (norm l) = some (ind, ttl, digs) → l.all isWS = false →
      digs ≠ [] ∧ digs.all isDigitC = true ∧ entryOfLine norm offset l ≠ none := by
  intro norm offset l ind ttl digs hm hb
  obtain ⟨h1, h2⟩ := matchLine_digits hm
  refine ⟨h1, h2, ?_⟩
  rw [entryOfLine_eq_some norm offset hb hm]
  simp

/-- Claim C9 witness at a concrete matched line. -/
theorem c9_matched_line_witness :
    entryOfLine (fun s => s) 0 ("\tChapter 1 5".data) ≠ none := by
  exact (c9_matched_line_yields_record (fun s => s) 0 ("\tChapter 1 5".data)
    ['\t'] ("Chapter 1".data) ['5'] (by decide) (by decide)).2.2

/-! ### Claim C3: indent-to-level formula -/

/-- Claim C3 counterexample: the line `"    5"` has a leading indent of four
spaces (0 tabs, 4 spaces), so the claim's formula gives level `0 + 4 / 4 = 1`;
but the engine backtracks group 1 to three spaces (the fourth space becomes
the separator group) and the parser assigns level 0. -/
theorem c3_counterexample :
    ("    5".data).takeWhile isWS = "    ".data ∧
    ("    ".data).count '\t' + ("    ".data).count ' ' / 4 = 1 ∧
    entryOfLine (fun s => s) 0 ("    5".data) = some (0, [], 5) := by
  decide

/-- Claim C3 amended: for a matched line whose leading indent consists of `t`
tabs and `s` spaces in any order and whose parsed title is nonempty (the line
is not whitespace followed directly by the page number), the level is
`t + s / 4`. -/
theorem c3_level_formula :
    ∀ (ind rest ind' ttl digs : List Char),
      ind.all (fun c => c == '\t' || c == ' ') = true →
      (rest.take 1).all (fun c => !isWS c) = true →
      matchLine (ind ++ rest) = some (ind', ttl, digs) → ttl ≠ [] →
      levelOf ind' = ind.count '\t' + ind.count ' ' / 4 := by
  intro ind rest ind' ttl digs hind hhead hm htt
  have hws : ind.all isWS = true := by
    rw [List.all_eq_true] at hind ⊢
    intro c hc
    have h := hind c hc
    simp only [Bool.or_eq_true, beq_iff_eq] at h
    rcases h with rfl | rfl <;> rfl
  have hW : (ind ++ rest).takeWhile isWS = ind := by
    rw [takeWhile_append_all _ _ _ hws]
    cases rest with
    | nil => simp
    | cons c t =>
        simp only [List.take, List.all_cons, List.all_nil, Bool.and_true,
          Bool.not_eq_true'] at hhead
        rw [takeWhile_cons_neg _ _ _ hhead]
        simp
  rw [matchLine] at hm
  rw [hW, List.drop_left] at hm
  cases hf : findFirstOk rest with
  | some p =>
      obtain ⟨a, b⟩ := p
      rw [hf] at hm
      simp only [Option.some.injEq, Prod.mk.injEq] at hm
      obtain ⟨h1, -, -⟩ := hm
      subst h1
      rfl
  | none =>
      rw [hf] at hm
      by_cases hcond : (!ind.isEmpty && !(rest.takeWhile isDigitC).isEmpty &&
          (rest.drop (rest.takeWhile isDigitC).length).all isWS) = true
      · rw [if_pos hcond] at hm
        simp only [Option.some.injEq, Prod.mk.injEq] at hm
        exact absurd hm.2.1.symm htt
      · rw [if_neg hcond] at hm
        simp at hm

/-- Claim C3 amended witness: indent of four spaces then one tab on a line
with a real title gives level 2. -/
theorem c3_level_formula_witness :
    levelOf ("    \t".data) = ("    \t".data).count '\t' + ("    \t".data).count ' ' / 4 ∧
    levelOf ("    \t".data) = 2 := by
  refine ⟨c3_level_formula ("    \t".data) ("Ch 5".data) ("    \t".data) ("Ch".data) ['5']
    (by decide) (by decide) (by decide) (by decide), by decide⟩

/-! ### Claim C7: normalization before matching -/

/-- Claim C7: the parser normalizes each (non-blank) line before matching, so
a line whose normalization equals its ASCII equivalent is parsed exactly as
the ASCII line is. -/
theorem c7_normalize_before_match :
    ∀ (norm : List Char → List Char) (offset : Int) (lfull lascii : List Char),
      norm lfull = lascii → lfull.all isWS = false → lascii.all isWS = false →
      entryOfLine norm offset lfull = entryOfLine (fun s => s) offset lascii := by
  intro norm offset lf la hn hbf hba
  simp [entryOfLine, hbf, hba, hn]

/-- Concrete normalization table for the C7 witness: NFKC maps the
full-width digits U+FF10-U+FF19 to `'0'`-`'9'` and the ideographic space
U+3000 to `' '`, and is the identity on ASCII. -/
def fwNorm (l : List Char) : List Char :=
  l.map fun c =>
    if 65296 ≤ c.toNat ∧ c.toNat ≤ 65305 then Char.ofNat (c.toNat - 65248)
    else if c.toNat = 12288 then ' ' else c

/-- Claim C7 witness: a line whose separator is an ideographic space and
whose page number is written with full-width digits parses successfully and
yields the same entry as its ASCII equivalent. -/
theorem c7_normalize_witness :
    entryOfLine fwNorm 0 ("Intro　１２".data) = entryOfLine (fun s => s) 0 ("Intro 12".data) ∧
    entryOfLine fwNorm 0 ("Intro　１２".data) = some (0, "Intro".data, 12) := by
  have h := c7_normalize_before_match fwNorm 0 ("Intro　１２".data) ("Intro 12".data)
    (by decide) (by decide) (by decide)
  exact ⟨h, by rw [h]; decide⟩

/-! ### Claim C5: bad lines are skipped; empty result is surfaced -/

theorem pySplitlines_cons (c : Char) (t : List Char) :
    pySplitlines (c :: t) =
      if c = '\n' then [] :: pySplitlines t
      else match pySplitlines t with | [] => [[c]] | h :: r => (c :: h) :: r := rfl

theorem pySplitlines_single {x : List Char} (hx : x ≠ []) (hn : '\n' ∉ x) :
    pySplitlines x = [x] := by
  induction x with
  | nil => exact absurd rfl hx
  | cons c t ih =>
      have hc : ¬(c = '\n') := fun h => hn (by rw [h]; exact List.mem_cons_self ..)
      cases t with
      | nil => simp [pySplitlines, hc]
      | cons d u =>
          have ht := ih (by simp) (fun hm => hn (List.mem_cons_of_mem _ hm))
          rw [pySplitlines_cons, if_neg hc, ht]

theorem pySplitlines_append_cons {x rest : List Char} (hn : '\n' ∉ x) :
    pySplitlines (x ++ '\n' :: rest) = x :: pySplitlines rest := by
  induction x with
  | nil => simp [pySplitlines]
  | cons c t ih =>
      have hc : ¬(c = '\n') := fun h => hn (by rw [h]; exact List.mem_cons_self ..)
      have iht := ih (fun hm => hn (List.mem_cons_of_mem _ hm))
      rw [List.cons_append, pySplitlines_cons, if_neg hc, iht]

theorem pySplitlines_joinNl {xs : List (List Char)} (h : ∀ x ∈ xs, x ≠ [] ∧ '\n' ∉ x) :
    pySplitlines (joinNl xs) = xs := by
  induction xs with
  | nil => rfl
  | cons x ys ih =>
      cases ys with
      | nil =>
          have hx := h x (List.mem_cons_self ..)
          exact pySplitlines_single hx.1 hx.2
      | cons y zs =>
          have hx := h x (List.mem_cons_self ..)
          have hstep : joinNl (x :: y :: zs) = x ++ '\n' :: joinNl (y :: zs) := rfl
          rw [hstep, pySplitlines_append_cons hx.2,
            ih (fun z hz => h z (List.mem_cons_of_mem _ hz))]

theorem parse_entries_joinNl (norm : List Char → List Char) (offset : Int)
    {xs : List (List Char)} (h : ∀ x ∈ xs, x ≠ [] ∧ '\n' ∉ x) :
    parse_entries norm offset (joinNl xs) = xs.filterMap (entryOfLine norm offset) := by
  rw [parse_entries, pySplitlines_joinNl h]

/-- Claim C5: a non-blank line that does not match the shape is skipped and
the remaining lines parse exactly as they would without it; and when parsing
produces no records from non-blank input, `generate_temp_pdf` surfaces the
correctable-input info dialog (with the format hint) instead of proceeding
(no exception is modelled anywhere in the parse path). -/
theorem c5_skip_and_empty_notice :
    (∀ (norm : List Char → List Char) (offset : Int) (pre post : List (List Char))
        (bad : List Char),
        (∀ x ∈ pre ++ post, x ≠ [] ∧ '\n' ∉ x) → '\n' ∉ bad → bad.all isWS = false →
        entryOfLine norm offset bad = none →
        parse_entries norm offset (joinNl (pre ++ bad :: post)) =
          parse_entries norm offset (joinNl (pre ++ post))) ∧
    (∀ (norm : List Char → List Char) (offset : Int) (f text : List Char) (r : CpdfResult),
        text.all isWS = false → parse_bookmarks norm offset text = [] →
        (generate_temp_pdf norm (some f) offset text r).1 = GenOutcome.emptyNotice true) := by
  constructor
  · intro norm offset pre post bad hx hbn hbb hbad
    have hbne : bad ≠ [] := by
      intro h
      rw [h] at hbb
      simp at hbb
    have hall : ∀ x ∈ pre ++ bad :: post, x ≠ [] ∧ '\n' ∉ x := by
      intro x hxm
      rcases List.mem_append.1 hxm with hp | hq
      · exact hx x (List.mem_append_left _ hp)
      · rcases List.mem_cons.1 hq with rfl | hq'
        · exact ⟨hbne, hbn⟩
        · exact hx x (List.mem_append_right _ hq')
    rw [parse_entries_joinNl norm offset hall, parse_entries_joinNl norm offset hx]
    simp [List.filterMap_append, List.filterMap_cons, hbad]
  · intro norm offset f text r hb hpb
    simp [generate_temp_pdf, hpb, hb]

/-- Claim C5 witness: a junk line between two valid lines changes nothing,
and all-junk non-blank input produces the empty-result notice. -/
theorem c5_skip_witness :
    parse_entries (fun s => s) 0 (joinNl ["A 1".data, "junk".data, "B 2".data]) =
      parse_entries (fun s => s) 0 (joinNl ["A 1".data, "B 2".data]) ∧
    (generate_temp_pdf (fun s => s) (some "f".data) 0 ("nonsense".data)
        CpdfResult.success).1 = GenOutcome.emptyNotice true := by
  exact ⟨c5_skip_and_empty_notice.1 (fun s => s) 0 ["A 1".data] ["B 2".data] ("junk".data)
      (by decide) (by decide) (by decide) (by decide),
    c5_skip_and_empty_notice.2 (fun s => s) 0 ("f".data) ("nonsense".data)
      CpdfResult.success (by decide) (by decide)⟩

/-! ### Claim C2: format/parse round trip -/

theorem suffixOk_decomp {s : List Char} (h : suffixOk s = true) :
    ∃ w d r, s = w ++ d ++ r ∧ w ≠ [] ∧ w.all isWS = true ∧ d ≠ [] ∧
      d.all isDigitC = true ∧ r.all isWS = true := by
  obtain ⟨h1, h2, h3⟩ := suffixOk_parts h
  have hsplit : ∀ (p : Char → Bool) (l : List Char),
      l = l.takeWhile p ++ l.drop (l.takeWhile p).length := by
    intro p l
    rw [← dropWhile_eq_drop_takeWhile]
    exact (List.takeWhile_append_dropWhile p l).symm
  refine ⟨s.takeWhile isWS, (s.drop (s.takeWhile isWS).length).takeWhile isDigitC,
    (s.drop (s.takeWhile isWS).length).drop
      ((s.drop (s.takeWhile isWS).length).takeWhile isDigitC).length,
    ?_, h1, ?_, h2, ?_, h3⟩
  · conv_lhs => rw [hsplit isWS s]
    rw [List.append_assoc]
    congr 1
    exact hsplit isDigitC _
  · rw [List.all_eq_true]
    intro c hc
    exact List.mem_takeWhile_imp hc
  · rw [List.all_eq_true]
    intro c hc
    exact List.mem_takeWhile_imp hc

theorem suffixOk_sep_all_ws {t digits : List Char} (hd : digits ≠ [])
    (hdall : digits.all isDigitC = true) (h : suffixOk (t ++ ' ' :: digits) = true) :
    t.all isWS = true := by
  obtain ⟨w, d, r, hs, hw, hwall, hdn, hdallc, hrall⟩ := suffixOk_decomp h
  have hrevA : (t ++ ' ' :: digits).reverse.takeWhile isDigitC = digits.reverse := by
    rw [List.reverse_append, List.reverse_cons, List.append_assoc,
      takeWhile_append_all _ _ _ (by rw [List.all_reverse]; exact hdall),
      List.singleton_append, takeWhile_cons_neg _ _ _ (by decide), List.append_nil]
  have hr : r = [] := by
    by_contra hrne
    have hrrev : r.reverse ≠ [] := fun hx => hrne (List.reverse_eq_nil_iff.1 hx)
    obtain ⟨c, t', hc⟩ := List.exists_cons_of_ne_nil hrrev
    have hcm : c ∈ r := List.mem_reverse.1 (hc ▸ List.mem_cons_self ..)
    have hcw : isWS c = true := List.all_eq_true.1 hrall c hcm
    have : (t ++ ' ' :: digits).reverse.takeWhile isDigitC = [] := by
      rw [hs, List.reverse_append, hc, List.cons_append,
        takeWhile_cons_neg _ _ _ (not_digit_of_ws hcw)]
    rw [hrevA] at this
    exact hd (List.reverse_eq_nil_iff.1 this)
  rw [hr, List.append_nil] at hs
  have hrevB : (t ++ ' ' :: digits).reverse.takeWhile isDigitC = d.reverse := by
    obtain ⟨c, t', hc⟩ := List.exists_cons_of_ne_nil
      (fun hx => hw (List.reverse_eq_nil_iff.1 hx) : w.reverse ≠ [])
    have hcm : c ∈ w := List.mem_reverse.1 (hc ▸ List.mem_cons_self ..)
    have hcw : isWS c = true := List.all_eq_true.1 hwall c hcm
    rw [hs, List.reverse_append,
      takeWhile_append_all _ _ _ (by rw [List.all_reverse]; exact hdallc), hc,
      takeWhile_cons_neg _ _ _ (not_digit_of_ws hcw), List.append_nil]
  have hdd : digits = d := List.reverse_injective (hrevA.symm.trans hrevB)
  have hcan : (t ++ [' ']) ++ digits = w ++ digits := by
    rw [List.append_assoc, List.singleton_append, hs, hdd]
  have htw : t ++ [' '] = w := List.append_cancel_right hcan
  rw [List.all_eq_true]
  intro c hc
  exact List.all_eq_true.1 hwall c (htw ▸ List.mem_append_left [' '] hc)

theorem findFirstOk_none_of_no_ws {s : List Char} (h : ∀ c ∈ s, isWS c = false) :
    findFirstOk s = none := by
  induction s with
  | nil => rfl
  | cons c t ih =>
      have hso : ¬(suffixOk (c :: t) = true) := by
        intro hx
        obtain ⟨h1, -, -⟩ := suffixOk_parts hx
        rw [takeWhile_cons_neg _ _ _ (h c (List.mem_cons_self ..))] at h1
        exact h1 rfl
      rw [findFirstOk, if_neg hso, ih (fun x hx => h x (List.mem_cons_of_mem _ hx))]
      rfl

theorem suffixOk_sep_digits {digits : List Char} (hd : digits ≠ [])
    (hdall : digits.all isDigitC = true) : suffixOk (' ' :: digits) = true := by
  obtain ⟨c, t, rfl⟩ := List.exists_cons_of_ne_nil hd
  have hcd : isDigitC c = true := List.all_eq_true.1 hdall c (List.mem_cons_self ..)
  have hw : (' ' :: c :: t).takeWhile isWS = [' '] := by
    rw [List.takeWhile_cons_of_pos (by decide), takeWhile_cons_neg _ _ _ (not_ws_of_digit hcd)]
  apply suffixOk_of_parts <;> rw [hw]
  · simp
  · simp only [List.length_cons, List.length_nil, List.drop_succ_cons, List.drop_zero]
    rw [takeWhile_all _ _ hdall]
    exact hd
  · simp only [List.length_cons, List.length_nil, List.drop_succ_cons, List.drop_zero]
    rw [takeWhile_all _ _ hdall, List.drop_length]
    rfl

theorem findFirstOk_formatted {ttl digits : List Char}
    (hd : digits ≠ []) (hdall : digits.all isDigitC = true)
    (hlast : ∀ c, ttl.getLast? = some c → isWS c = false) :
    findFirstOk (ttl ++ ' ' :: digits) = some (ttl, ' ' :: digits) := by
  induction ttl with
  | nil =>
      rw [List.nil_append, findFirstOk, if_pos (suffixOk_sep_digits hd hdall)]
  | cons a t ih =>
      have hso : ¬(suffixOk ((a :: t) ++ ' ' :: digits) = true) := by
        intro hx
        have hall := suffixOk_sep_all_ws hd hdall hx
        have hlm : (a :: t).getLast (by simp) ∈ a :: t := List.getLast_mem _
        have hlw : isWS ((a :: t).getLast (by simp)) = true :=
          List.all_eq_true.1 hall _ hlm
        have := hlast _ (List.getLast?_eq_getLast (a :: t) (by simp))
        rw [this] at hlw
        exact Bool.false_ne_true hlw
      rw [List.cons_append, findFirstOk, if_neg (by rw [← List.cons_append]; exact hso)]
      have hlast' : ∀ c, t.getLast? = some c → isWS c = false := by
        intro c hc
        cases t with
        | nil => simp at hc
        | cons b u =>
            apply hlast
            rw [List.getLast?_cons_cons]
            exact hc
      rw [ih hlast']
      rfl

/-- The formatted line of a nonempty title whose first and last characters
are not whitespace matches back to exactly its own groups. -/
theorem matchLine_formatted {lv : Nat} {ttl digits : List Char}
    (hd : digits ≠ []) (hdall : digits.all isDigitC = true)
    (hne : ttl ≠ []) (hhead : ∀ c, ttl.head? = some c → isWS c = false)
    (hlast : ∀ c, ttl.getLast? = some c → isWS c = false) :
    matchLine (List.replicate lv '\t' ++ ttl ++ ' ' :: digits) =
      some (List.replicate lv '\t', ttl, digits) := by
  obtain ⟨a, t, rfl⟩ := List.exists_cons_of_ne_nil hne
  have hha : isWS a = false := hhead a rfl
  have hW : (List.replicate lv '\t' ++ ((a :: t) ++ ' ' :: digits)).takeWhile isWS =
      List.replicate lv '\t' := by
    rw [takeWhile_append_all _ _ _
      (by rw [List.all_eq_true]; intro c hc; rw [List.eq_of_mem_replicate hc]; rfl)]
    rw [List.cons_append, takeWhile_cons_neg _ _ _ hha, List.append_nil]
  rw [matchLine, List.append_assoc, hW, List.drop_left]
  rw [findFirstOk_formatted hd hdall hlast]
  obtain ⟨c, dt, rfl⟩ := List.exists_cons_of_ne_nil hd
  have hcd : isDigitC c = true := List.all_eq_true.1 hdall c (List.mem_cons_self ..)
  have hsep : (' ' :: c :: dt).takeWhile isWS = [' '] := by
    rw [List.takeWhile_cons_of_pos (by decide), takeWhile_cons_neg _ _ _ (not_ws_of_digit hcd)]
  simp only [hsep, List.length_cons, List.length_nil, List.drop_succ_cons, List.drop_zero,
    takeWhile_all _ _ hdall]

/-- The formatted line of an empty title backtracks into the degenerate
match: the separator is taken from the indent, and the groups still
reproduce the entry. -/
theorem matchLine_formatted_empty {lv : Nat} {digits : List Char}
    (hd : digits ≠ []) (hdall : digits.all isDigitC = true) :
    matchLine (List.replicate lv '\t' ++ ' ' :: digits) =
      some (List.replicate lv '\t', [], digits) := by
  have hW : (List.replicate lv '\t' ++ ' ' :: digits).takeWhile isWS =
      List.replicate lv '\t' ++ [' '] := by
    rw [takeWhile_append_all _ _ _
      (by rw [List.all_eq_true]; intro c hc; rw [List.eq_of_mem_replicate hc]; rfl)]
    congr 1
    obtain ⟨c, dt, rfl⟩ := List.exists_cons_of_ne_nil hd
    have hcd : isDigitC c = true := List.all_eq_true.1 hdall c (List.mem_cons_self ..)
    rw [List.takeWhile_cons_of_pos (by decide), takeWhile_cons_neg _ _ _ (not_ws_of_digit hcd)]
  have hdrop : (List.replicate lv '\t' ++ ' ' :: digits).drop
      (List.replicate lv '\t' ++ [' ']).length = digits := by
    have : List.replicate lv '\t' ++ ' ' :: digits =
        (List.replicate lv '\t' ++ [' ']) ++ digits := by
      rw [List.append_assoc]
      rfl
    rw [this, List.drop_left]
  rw [matchLine, hW, hdrop]
  rw [findFirstOk_none_of_no_ws
    (fun c hc => not_ws_of_digit (List.all_eq_true.1 hdall c hc))]
  rw [takeWhile_all _ _ hdall]
  rw [if_pos]
  · rw [List.dropLast_concat]
  · simp only [Bool.and_eq_true, Bool.not_eq_true', List.isEmpty_eq_false]
    refine ⟨⟨by simp, hd⟩, by rw [List.drop_length]; rfl⟩

theorem titleOk_head {t : List Char} (h : titleOk t = true) :
    ∀ c, t.head? = some c → isWS c = false := by
  intro c hc
  simp only [titleOk, Bool.and_eq_true] at h
  have := h.1.2
  rw [hc] at this
  simpa using this

theorem titleOk_last {t : List Char} (h : titleOk t = true) :
    ∀ c, t.getLast? = some c → isWS c = false := by
  intro c hc
  simp only [titleOk, Bool.and_eq_true] at h
  have := h.2
  rw [hc] at this
  simpa using this

theorem titleOk_no_nl {t : List Char} (h : titleOk t = true) : '\n' ∉ t := by
  intro hm
  simp only [titleOk, Bool.and_eq_true] at h
  have := List.all_eq_true.1 h.1.1 '\n' hm
  simp at this
  exact absurd this (by decide)

theorem formatEntryLine_ne_nil (lv : Nat) (ttl : List Char) (page : Nat) :
    formatEntryLine lv ttl page ≠ [] := by
  simp [formatEntryLine]

theorem nl_not_mem_formatEntryLine {lv : Nat} {ttl : List Char} {page : Nat}
    (ht : titleOk ttl = true) : '\n' ∉ formatEntryLine lv ttl page := by
  intro hm
  simp only [formatEntryLine, List.mem_append, List.mem_cons] at hm
  rcases hm with (hr | htl) | (hsp | hdec)
  · exact absurd (List.eq_of_mem_replicate hr) (by decide)
  · exact titleOk_no_nl ht htl
  · exact absurd hsp (by decide)
  · have := List.all_eq_true.1 (toDecimal_all_digits page) '\n' hdec
    exact absurd this (by decide)

theorem entryOfLine_formatted (norm : List Char → List Char) {lv : Nat}
    {ttl : List Char} {page : Nat} (ht : titleOk ttl = true) (hp : 1 ≤ page)
    (hnorm : norm (formatEntryLine lv ttl page) = formatEntryLine lv ttl page) :
    entryOfLine norm 0 (formatEntryLine lv ttl page) = some (lv, ttl, (page : Int)) := by
  have hd := toDecimal_ne_nil page
  have hdall := toDecimal_all_digits page
  have hblank : (formatEntryLine lv ttl page).all isWS = false := by
    obtain ⟨c, hc⟩ := List.exists_mem_of_ne_nil _ hd
    have hcd := List.all_eq_true.1 hdall c hc
    have hcm : c ∈ formatEntryLine lv ttl page := by
      exact List.mem_append_right _ (List.mem_cons_of_mem _ hc)
    rw [Bool.eq_false_iff]
    intro hb
    have := List.all_eq_true.1 hb c hcm
    rw [not_ws_of_digit hcd] at this
    exact Bool.false_ne_true this
  have hm : matchLine (norm (formatEntryLine lv ttl page)) =
      some (List.replicate lv '\t', ttl, toDecimal page) := by
    rw [hnorm]
    by_cases hne : ttl = []
    · subst hne
      have hfe : formatEntryLine lv [] page =
          List.replicate lv '\t' ++ ' ' :: toDecimal page := by
        simp [formatEntryLine]
      rw [hfe]
      exact matchLine_formatted_empty hd hdall
    · exact matchLine_formatted hd hdall hne (titleOk_head ht) (titleOk_last ht)
  rw [entryOfLine_eq_some norm 0 hblank hm, digitsVal_toDecimal]
  have hlevel : levelOf (List.replicate lv '\t') = lv := by
    unfold levelOf
    rw [List.count_replicate_self]
    have hz : (List.replicate lv '\t').count ' ' = 0 := by
      simp [List.count_replicate]
    rw [hz]
    simp
  rw [hlevel, if_neg (by omega)]
  norm_num

theorem filterMap_formatted (norm : List Char → List Char) :
    ∀ es : List (Nat × List Char × Nat),
      (∀ e ∈ es, titleOk e.2.1 = true ∧ 1 ≤ e.2.2) →
      (∀ e ∈ es, norm (formatEntryLine e.1 e.2.1 e.2.2) = formatEntryLine e.1 e.2.1 e.2.2) →
      (es.map fun e => formatEntryLine e.1 e.2.1 e.2.2).filterMap (entryOfLine norm 0) =
        es.map fun e => (e.1, e.2.1, (e.2.2 : Int)) := by
  intro es
  induction es with
  | nil => intro _ _; rfl
  | cons e tl ih =>
      intro h hnorm
      obtain ⟨ht, hp⟩ := h e (List.mem_cons_self ..)
      rw [List.map_cons, List.filterMap_cons, List.map_cons]
      rw [entryOfLine_formatted norm ht hp (hnorm e (List.mem_cons_self ..))]
      rw [ih (fun x hx => h x (List.mem_cons_of_mem _ hx))
        (fun x hx => hnorm x (List.mem_cons_of_mem _ hx))]

/-- Claim C2 counterexample: the single entry `(0, "A ", 5)` — title with a
trailing space, no trailing whitespace-separated digit run — formats to the
line `A  5`, which re-parses with offset 0 to `(0, "A", 5)`: the trailing
space of the title is absorbed into the separator group, so the sequence is
not reproduced. -/
theorem c2_counterexample :
    hasTrailingWsDigits ("A ".data) = false ∧
    parse_entries (fun s => s) 0 (joinNl [formatEntryLine 0 ("A ".data) 5]) =
      [(0, "A".data, 5)] ∧
    (0, "A".data, (5 : Int)) ≠ (0, "A ".data, (5 : Int)) := by
  decide

/-- Claim C2 amended: formatting a sequence of `(level, title, page)` triples
(per the 4.2 inverse: level tabs, title, one space, page) and re-parsing with
offset 0 reproduces exactly the same triples, provided each title contains no
whitespace-separated trailing digit run (the claim's own exclusion), contains
no line-terminator characters, neither starts nor ends with a whitespace
character, is left unchanged by normalization on its formatted line, and each
page is at least 1. -/
theorem c2_roundtrip (norm : List Char → List Char) (es : List (Nat × List Char × Nat))
    (h : ∀ e ∈ es, titleOk e.2.1 = true ∧ 1 ≤ e.2.2 ∧ hasTrailingWsDigits e.2.1 = false)
    (hnorm : ∀ e ∈ es, norm (formatEntryLine e.1 e.2.1 e.2.2) = formatEntryLine e.1 e.2.1 e.2.2) :
    parse_entries norm 0 (joinNl (es.map fun e => formatEntryLine e.1 e.2.1 e.2.2)) =
      es.map fun e => (e.1, e.2.1, (e.2.2 : Int)) := by
  have hlines : ∀ x ∈ es.map (fun e => formatEntryLine e.1 e.2.1 e.2.2), x ≠ [] ∧ '\n' ∉ x := by
    intro x hx
    rw [List.mem_map] at hx
    obtain ⟨e, he, rfl⟩ := hx
    exact ⟨formatEntryLine_ne_nil _ _ _, nl_not_mem_formatEntryLine (h e he).1⟩
  rw [parse_entries_joinNl norm 0 hlines]
  exact filterMap_formatted norm es (fun e he => ⟨(h e he).1, (h e he).2.1⟩) hnorm

/-- Claim C2 amended witness: a two-entry outline whose titles satisfy the
hypotheses (note `Section 1.1` ends in digits but they are not preceded by
whitespace) round-trips exactly. -/
theorem c2_roundtrip_witness :
    parse_entries (fun s => s) 0
      (joinNl (([(0, "Intro".data, 1),
        (2, "Section 1.1".data, 10)] : List (Nat × List Char × Nat)).map
          fun e => formatEntryLine e.1 e.2.1 e.2.2)) =
      [(0, "Intro".data, (1 : Int)), (2, "Section 1.1".data, 10)] := by
  exact c2_roundtrip (fun s => s)
    [(0, "Intro".data, 1), (2, "Section 1.1".data, 10)]
    (by decide) (by intro e he; rfl)

/-! ### Claim C10: listing lines with trailing text -/

theorem closeOk_quote (t : List Char) :
    closeOk ('"' :: t) = (!(t.takeWhile isWS).isEmpty &&
      !((t.drop (t.takeWhile isWS).length).takeWhile isDigitC).isEmpty) := rfl

theorem closeOk_ne_quote {c : Char} {t : List Char} (h : ¬(c = '"')) :
    closeOk (c :: t) = false := by
  rw [closeOk.eq_def]
  split
  · rename_i t' heq
    injection heq with h1 h2
    exact absurd h1 h
  · rfl

theorem closeOk_shape {b : List Char} (h : closeOk b = true) : ∃ t, b = '"' :: t := by
  cases b with
  | nil => simp [closeOk] at h
  | cons c t =>
      by_cases hc : c = '"'
      · exact ⟨t, by rw [hc]⟩
      · rw [closeOk_ne_quote hc] at h
        exact absurd h (by simp)

theorem findLastClose_spec {s a b : List Char} (h : findLastClose s = some (a, b)) :
    closeOk b = true := by
  induction s generalizing a b with
  | nil => simp [findLastClose] at h
  | cons c t ih =>
      rw [findLastClose] at h
      cases ht : findLastClose t with
      | some p =>
          obtain ⟨a', b'⟩ := p
          rw [ht] at h
          simp only [Option.some.injEq, Prod.mk.injEq] at h
          rw [← h.2]
          exact ih ht
      | none =>
          rw [ht] at h
          by_cases hc : closeOk (c :: t) = true
          · rw [if_pos hc] at h
            simp only [Option.some.injEq, Prod.mk.injEq] at h
            rw [← h.2]
            exact hc
          · rw [if_neg hc] at h
            simp at h

theorem findLastClose_none {s : List Char} (h : '"' ∉ s) : findLastClose s = none := by
  induction s with
  | nil => rfl
  | cons c t ih =>
      have hco : ¬(closeOk (c :: t) = true) := by
        intro hx
        obtain ⟨t', ht'⟩ := closeOk_shape hx
        exact h (by rw [ht']; exact List.mem_cons_self ..)
      rw [findLastClose, ih (fun hm => h (List.mem_cons_of_mem _ hm))]
      exact if_neg hco

theorem findLastClose_cons_of_tail {c : Char} {t a b : List Char}
    (h : findLastClose t = some (a, b)) :
    findLastClose (c :: t) = some (c :: a, b) := by
  rw [findLastClose, h]

theorem findLastClose_append_some (a : List Char) {b t c : List Char}
    (h : findLastClose b = some (t, c)) :
    findLastClose (a ++ b) = some (a ++ t, c) := by
  induction a with
  | nil => simpa using h
  | cons x xs ih =>
      rw [List.cons_append, findLastClose_cons_of_tail ih, List.cons_append]

theorem findLastClose_append_isSome (a : List Char) {s : List Char}
    (h : closeOk s = true) : (findLastClose (a ++ s)).isSome = true := by
  induction a with
  | nil =>
      obtain ⟨t, rfl⟩ := closeOk_shape h
      rw [List.nil_append, findLastClose]
      cases ht : findLastClose t with
      | some p => simp
      | none => rw [if_pos h]; simp
  | cons x xs ih =>
      rw [List.cons_append, findLastClose]
      cases hfc : findLastClose (xs ++ s) with
      | some p => simp
      | none => rw [hfc] at ih; simp at ih

theorem closeOk_real {ws2 pg junk : List Char} (hw2 : ws2 ≠ []) (hw2a : ws2.all isWS = true)
    (hp : pg ≠ []) (hpa : pg.all isDigitC = true) :
    closeOk ('"' :: (ws2 ++ (pg ++ junk))) = true := by
  obtain ⟨c, dt, rfl⟩ := List.exists_cons_of_ne_nil hp
  have hcd : isDigitC c = true := List.all_eq_true.1 hpa c (List.mem_cons_self ..)
  have htw : (ws2 ++ (c :: dt ++ junk)).takeWhile isWS = ws2 := by
    rw [takeWhile_append_all _ _ _ hw2a, List.cons_append,
      takeWhile_cons_neg _ _ _ (not_ws_of_digit hcd), List.append_nil]
  rw [closeOk_quote, htw, List.drop_left]
  simp only [Bool.and_eq_true, Bool.not_eq_true', List.isEmpty_eq_false]
  refine ⟨hw2, ?_⟩
  rw [List.cons_append, List.takeWhile_cons_of_pos hcd]
  simp

theorem importMatch_shape {lvl ws1 rest : List Char}
    (hl : lvl ≠ []) (hla : lvl.all isDigitC = true)
    (hw1 : ws1 ≠ []) (hw1a : ws1.all isWS = true) :
    importMatch (lvl ++ (ws1 ++ '"' :: rest)) =
      (match findLastClose rest with
       | some (ttlg, _ :: afterQuote) =>
           some (lvl, ttlg,
             (afterQuote.drop (afterQuote.takeWhile isWS).length).takeWhile isDigitC)
       | _ => none) := by
  have hd' : (lvl ++ (ws1 ++ '"' :: rest)).takeWhile isDigitC = lvl := by
    rw [takeWhile_append_all _ _ _ hla]
    obtain ⟨c, t, rfl⟩ := List.exists_cons_of_ne_nil hw1
    have hcw : isWS c = true := List.all_eq_true.1 hw1a c (List.mem_cons_self ..)
    rw [List.cons_append, takeWhile_cons_neg _ _ _ (not_digit_of_ws hcw), List.append_nil]
  have hw' : (ws1 ++ '"' :: rest).takeWhile isWS = ws1 := by
    rw [takeWhile_append_all _ _ _ hw1a, takeWhile_cons_neg _ _ _ (by decide), List.append_nil]
  simp only [importMatch, hd']
  rw [if_neg (by simp only [List.isEmpty_eq_true]; exact hl)]
  rw [List.drop_left, hw']
  rw [if_neg (by simp only [List.isEmpty_eq_true]; exact hw1)]
  rw [List.drop_left]
  rfl

/-- Claim C10 counterexample: the listing line `0 "A" 5 "B" 7` has the form
`LEVEL "TITLE" PAGE` (with TITLE = A, PAGE = 5) followed by trailing text
` "B" 7`, and it is accepted — but the trailing text is not ignored: the
greedy `(.*)` group extends the title to the last quote followed by
whitespace and a digit, producing title `A" 5 "B` and page 7 instead of
`(0, A, 5)`. -/
theorem c10_counterexample :
    importMatch ("0 \"A\" 5 \"B\" 7".data) = some (['0'], "A\" 5 \"B".data, ['7']) ∧
    some (['0'], "A\" 5 \"B".data, ['7']) ≠
      some (['0'], "A".data, ['5']) := by
  decide

/-- Claim C10 amended: a listing line `LEVEL "TITLE" PAGE` followed by
arbitrary trailing text is always accepted as a bookmark entry (the pattern
is not end-anchored); and when the trailing text contains no double-quote
character and does not begin with a digit, the captured groups are exactly
`(LEVEL, TITLE, PAGE)`, the trailing text being ignored. -/
theorem c10_trailing_text :
    ∀ lvl ws1 ttl ws2 pg : List Char,
      lvl ≠ [] → lvl.all isDigitC = true → ws1 ≠ [] → ws1.all isWS = true →
      ws2 ≠ [] → ws2.all isWS = true → pg ≠ [] → pg.all isDigitC = true →
      (∀ junk : List Char,
        (importMatch (lvl ++ (ws1 ++ '"' :: (ttl ++ '"' :: (ws2 ++ (pg ++ junk)))))).isSome
          = true) ∧
      (∀ junk : List Char, '"' ∉ junk → (junk.take 1).all (fun c => !isDigitC c) = true →
        importMatch (lvl ++ (ws1 ++ '"' :: (ttl ++ '"' :: (ws2 ++ (pg ++ junk))))) =
          some (lvl, ttl, pg)) := by
  intro lvl ws1 ttl ws2 pg hl hla hw1 hw1a hw2 hw2a hp hpa
  constructor
  · intro junk
    rw [importMatch_shape hl hla hw1 hw1a]
    have hclose : closeOk ('"' :: (ws2 ++ (pg ++ junk))) = true :=
      closeOk_real hw2 hw2a hp hpa
    have hsome := findLastClose_append_isSome ttl hclose
    obtain ⟨p, hpeq⟩ := Option.isSome_iff_exists.1 hsome
    obtain ⟨a0, b0⟩ := p
    obtain ⟨t0, ht0⟩ := closeOk_shape (findLastClose_spec hpeq)
    rw [hpeq, ht0]
    rfl
  · intro junk hjq hjd
    rw [importMatch_shape hl hla hw1 hw1a]
    have hnq : '"' ∉ ws2 ++ (pg ++ junk) := by
      intro hm
      rcases List.mem_append.1 hm with hm2 | hm3
      · have := List.all_eq_true.1 hw2a _ hm2
        exact absurd this (by decide)
      · rcases List.mem_append.1 hm3 with hm4 | hm5
        · have := List.all_eq_true.1 hpa _ hm4
          exact absurd this (by decide)
        · exact hjq hm5
    have hinner : findLastClose ('"' :: (ws2 ++ (pg ++ junk))) =
        some ([], '"' :: (ws2 ++ (pg ++ junk))) := by
      rw [findLastClose, findLastClose_none hnq,
        if_pos (closeOk_real hw2 hw2a hp hpa)]
    rw [findLastClose_append_some ttl hinner, List.append_nil]
    have hsep : (ws2 ++ (pg ++ junk)).takeWhile isWS = ws2 := by
      obtain ⟨c, dt, rfl⟩ := List.exists_cons_of_ne_nil hp
      have hcd : isDigitC c = true := List.all_eq_true.1 hpa c (List.mem_cons_self ..)
      rw [takeWhile_append_all _ _ _ hw2a, List.cons_append,
        takeWhile_cons_neg _ _ _ (not_ws_of_digit hcd), List.append_nil]
    have hdig : ((ws2 ++ (pg ++ junk)).drop ws2.length).takeWhile isDigitC = pg := by
      rw [List.drop_left, takeWhile_append_all _ _ _ hpa]
      cases junk with
      | nil => simp
      | cons j t =>
          simp only [List.take, List.all_cons, List.all_nil, Bool.and_true,
            Bool.not_eq_true'] at hjd
          rw [takeWhile_cons_neg _ _ _ hjd, List.append_nil]
    simp only [hsep, hdig]

/-- Claim C10 amended witness: the listing line `0 "A" 5 x` (trailing junk
` x`, quote-free, non-digit) is accepted and parses to level 0, title A,
page 5. -/
theorem c10_trailing_text_witness :
    importMatch ("0 \"A\" 5 x".data) = some (['0'], "A".data, ['5']) := by
  have h := (c10_trailing_text ['0'] [' '] ("A".data) [' '] ['5'] (by decide) (by decide)
    (by decide) (by decide) (by decide) (by decide) (by decide) (by decide)).2
    (" x".data) (by decide) (by decide)
  have he : ("0 \"A\" 5 x".data) =
      ['0'] ++ ([' '] ++ '"' :: ("A".data ++ '"' :: ([' '] ++ (['5'] ++ " x".data)))) := by
    decide
  rw [he]
  exact h
